import Mathlib

/-!
Verification of the `please` history-to-script compiler.

Rust strings are embedded as `List Char` (`Str`); each definition below mirrors
one function or constant of `src/history_parser.rs` / `src/script.rs`.
Fallible behaviour is explicit: `POutcome.ok` models a returned `Ok`,
`POutcome.err` a returned `anyhow` error, and `POutcome.panicked` a Rust
panic (`expect!` / `assert!`), which aborts instead of returning a value.
-/

namespace Please

/-- Rust `String` / `&str`, embedded as its character sequence. -/
abbrev Str := List Char

/-- Rust `str::trim_start` restricted to the ASCII whitespace that occurs in
shell history (`Char.isWhitespace` covers space, tab, CR, LF). -/
def trimLeft : Str → Str
  | [] => []
  | c :: cs => if c.isWhitespace then trimLeft cs else c :: cs

/-- Rust `str::trim_end`. -/
def trimRight (s : Str) : Str := (trimLeft s.reverse).reverse

/-- Rust `str::trim`. -/
def trim (s : Str) : Str := trimRight (trimLeft s)

/-- Rust `str::split` with a single-character pattern: the list of segments
between occurrences of `sep` (never empty; `""` splits to `[""]`). -/
def splitOnChar (sep : Char) : Str → List Str
  | [] => [[]]
  | c :: cs =>
    if c = sep then [] :: splitOnChar sep cs
    else
      match splitOnChar sep cs with
      | [] => [[c]]
      | p :: ps => (c :: p) :: ps

/-- Rust `str::contains` with a `&str` pattern: substring occurrence. -/
def strContains : Str → Str → Bool
  | [], pat => pat.isEmpty
  | c :: rest, pat => pat.isPrefixOf (c :: rest) || strContains rest pat

/-- One fuel-indexed step layer of `str::trim_start_matches`: strip the
pattern from the front as long as it is a prefix.  Each strip removes at
least one character, so fuel `s.length` is always sufficient. -/
def trimStartMatchesAux (pat : Str) : Nat → Str → Str
  | 0, s => s
  | fuel + 1, s =>
    if pat ≠ [] ∧ pat.isPrefixOf s then
      trimStartMatchesAux pat fuel (s.drop pat.length)
    else s

/-- Rust `str::trim_start_matches` with a `&str` pattern. -/
def trimStartMatches (pat s : Str) : Str := trimStartMatchesAux pat s.length s

/-- Drop a single trailing carriage return (the `\r\n` handling inside
Rust `str::lines`). -/
def stripCR (l : Str) : Str := if l.getLast? = some '\r' then l.dropLast else l

/-- Rust `str::lines`: split at `'\n'`, the final line ending optional, and a
`'\r'` immediately before a split point removed.  A bare trailing `'\r'`
with no following `'\n'` is kept, as in Rust. -/
def rustLines (s : Str) : List Str :=
  let parts := splitOnChar '\n' s
  let start := parts.dropLast.map stripCR
  match parts.getLast? with
  | none => []
  | some [] => start
  | some l => start ++ [l]

/-- `src/history_parser.rs`: `Variable { value, expr }` (shared with
`src/script.rs`). -/
structure Variable where
  value : Str
  expr : Str
deriving DecidableEq, Repr

/-- `src/history_parser.rs` line 17: `SHEBANG`. -/
def SHEBANG : Str := "#!/bin/sh\n".data

/-- `src/history_parser.rs` line 18: `BUILD_CMD`. -/
def BUILD_CMD : Str := "please build".data

/-- `src/history_parser.rs` lines 19-29: `IGNORED_COMMANDS`. -/
def IGNORED_COMMANDS : List Str :=
  [ "please current".data,
    "please list".data,
    "please build".data,
    "please build --help".data,
    "please build -h".data,
    "cargo run -- list".data,
    "cargo run -- current".data,
    "please ask --help".data,
    "please ask -h".data ]

/-- `src/history_parser.rs` lines 85-89: `is_please_ask`. -/
def is_please_ask (line : Str) : Bool :=
  (strContains line ("please ask".data) || strContains line ("cargo run -- ask".data))
    && !(IGNORED_COMMANDS.contains line)

/-- `src/history_parser.rs` lines 94-106: `is_start_of_build`. -/
def is_start_of_build (line : Str) : Bool :=
  if BUILD_CMD.isPrefixOf line then
    let remainder := trim (trimStartMatches BUILD_CMD (trim line))
    if remainder == "--help".data || remainder == "-h".data then false
    else !remainder.isEmpty
  else false

/-- The per-line payload extraction of `parse_history` (line 42):
`line.trim().split(";").skip(1).collect::<String>()`. -/
def payloadOf (line : Str) : Str := ((splitOnChar ';' (trim line)).tail).flatten

/-- The prompt extraction of the ask arm (lines 54-61):
`cmd.split(' ').skip_while(|s| !s.starts_with("ask")).skip(1) ... .join(" ").trim_matches('"')`. -/
def askPrompt (cmd : Str) : Str :=
  let toks := (splitOnChar ' ' cmd).dropWhile (fun s => !(("ask".data).isPrefixOf s))
  let joined := List.intercalate [' '] (toks.drop 1)
  ((joined.dropWhile (fun a => a == '"')).reverse.dropWhile (fun a => a == '"')).reverse

/-- The `read` statement built at line 63:
`format!("read -p \"{} \" {}", prompt, var.value)`. -/
def readCmd (cmd : Str) (v : Variable) : Str :=
  "read -p \"".data ++ askPrompt cmd ++ " \" ".data ++ v.value

/-- Observable outcome of a Rust function returning `anyhow::Result`:
a returned `Ok`, a returned `Err`, or a panic (no value returned). -/
inductive POutcome where
  | ok (lines : List Str)
  | err (msg : Str)
  | panicked (msg : Str)
deriving DecidableEq, Repr

/-- `line.ends_with("\n")`. -/
def endsWithNewline (s : Str) : Bool := s.getLast? == some '\n'

/-- The `for` loop of `parse_history` (lines 39-71): scan the remaining
payloads with the reversed variable iterator and the accumulated `res`.
The `assert!` at line 45 and the `expect` at line 52 are panics. -/
def runLoop : List Str → List Variable → List Str → POutcome
  | [], _, res => .ok res
  | line :: rest, vars, res =>
    if endsWithNewline line then
      .panicked ("unexpected newline at ".data ++ line)
    else if IGNORED_COMMANDS.any (fun w => strContains line w) then
      runLoop rest vars res
    else if is_please_ask line then
      match vars with
      | [] => .panicked ("contains var".data)
      | v :: vs => runLoop rest vs (res ++ [v.expr, readCmd line v])
    else
      runLoop rest vars (res ++ [line])

/-- Negation of the stop predicate driving the `take_while` at line 43. -/
def notBuildStart (l : Str) : Bool := !is_start_of_build l

/-- The `take_while(|line| !is_start_of_build(line))` applied to the stream
of payloads (line 43). -/
def scanPayloads (ps : List Str) : List Str := ps.takeWhile notBuildStart

/-- Lines 39-42: the history's lines, reversed (newest first), each mapped
to its payload. -/
def historyPayloads (history : Str) : List Str :=
  ((rustLines history).reverse).map payloadOf

/-- Lines 73-77: append the two trailer lines and reverse into final order
(when the loop finished normally). -/
def finishRes : POutcome → POutcome
  | .ok res => .ok ((res ++ ["set -e\n".data, SHEBANG]).reverse)
  | e => e

/-- `src/history_parser.rs` lines 32-78: `parse_history` for the Zsh parser. -/
def parse_history (history : Str) (vars : List Variable) : POutcome :=
  finishRes (runLoop (scanPayloads (historyPayloads history)) vars.reverse [])

/-- Everything strictly after the first occurrence of `sep` (empty when
`sep` does not occur): the reading of "the line's text after the first
semicolon" used by the specification. -/
def afterFirstOcc (sep : Char) : Str → Str
  | [] => []
  | c :: rest => if c = sep then rest else afterFirstOcc sep rest

/-- Whether `x` and `y` occur as an adjacent pair (in that order) in `l`. -/
def hasAdjacentPair (x y : Str) : List Str → Bool
  | [] => false
  | [_] => false
  | a :: b :: rest => (a == x && b == y) || hasAdjacentPair x y (b :: rest)

/-- Whether the outcome is a returned `Err` value (as opposed to a returned
`Ok` or a panic). -/
def isErrReturn : POutcome → Bool
  | .err _ => true
  | _ => false

/-- A scanned payload that the loop treats as an ask expansion (the second
match arm of the loop: not ignored, recognized by `is_please_ask`). -/
def isAskCounted (l : Str) : Bool :=
  !(IGNORED_COMMANDS.any (fun w => strContains l w)) && is_please_ask l

/-- Number of payloads the loop will treat as ask expansions. -/
def askCount (ls : List Str) : Nat := (ls.filter isAskCounted).length

/-! ### The persisted build session (src/script.rs) -/

/-- JSON values as serde_json structures them (the constructors the build
file uses). -/
inductive Json where
  | str (s : Str)
  | arr (elems : List Json)
  | obj (fields : List (Str × Json))

/-- `src/script.rs` lines 235-239: `BuildFile { script_name, variables }`.
The Lean field is named `vars` because `variables` is a Lean keyword. -/
structure BuildFile where
  script_name : Str
  vars : List Variable
deriving DecidableEq, Repr

/-- The serde `Serialize` derive for `Variable`: an object with the two
string fields in declaration order. -/
def Variable.toJson (v : Variable) : Json :=
  Json.obj [("value".data, Json.str v.value), ("expr".data, Json.str v.expr)]

/-- The serde `Deserialize` derive for `Variable`: look both fields up by
name; fail when either is missing or not a string. -/
def Variable.fromJson : Json → Option Variable
  | .obj fields =>
    match List.lookup ("value".data) fields, List.lookup ("expr".data) fields with
    | some (.str v), some (.str e) => some ⟨v, e⟩
    | _, _ => none
  | _ => none

/-- Elementwise, fail-fast deserialization of a JSON sequence of
variables (how serde deserializes `Vec<Variable>`). -/
def varsFromJson : List Json → Option (List Variable)
  | [] => some []
  | j :: rest =>
    match Variable.fromJson j, varsFromJson rest with
    | some v, some vs => some (v :: vs)
    | _, _ => none

/-- The serde `Serialize` derive for `BuildFile`. -/
def BuildFile.toJson (b : BuildFile) : Json :=
  Json.obj [("script_name".data, Json.str b.script_name),
            ("variables".data, Json.arr (b.vars.map Variable.toJson))]

/-- The serde `Deserialize` derive for `BuildFile`. -/
def BuildFile.fromJson : Json → Option BuildFile
  | .obj fields =>
    match List.lookup ("script_name".data) fields,
        List.lookup ("variables".data) fields with
    | some (.str n), some (.arr elems) =>
      match varsFromJson elems with
      | some vs => some ⟨n, vs⟩
      | none => none
    | _, _ => none
  | _ => none

/-- `src/script.rs` lines 266-270: `BuildFile::save_replace` — overwrite the
session file (modelled as the `Option Json` it stores) with this session. -/
def save_replace (b : BuildFile) (_fs : Option Json) : Option Json :=
  some b.toJson

/-- `src/script.rs` lines 272-278: `BuildFile::current_build` — fail when no
session file exists, otherwise parse it. -/
def current_build (fs : Option Json) : Except Str BuildFile :=
  match fs with
  | none => .error ("No build file found".data)
  | some j =>
    match BuildFile.fromJson j with
    | some b => .ok b
    | none => .error ("parse build file".data)

/-! ### Generic helper lemmas about the embedded string operations -/

theorem isPrefixOf_append_self (xs ys : Str) : xs.isPrefixOf (xs ++ ys) = true := by
  induction xs with
  | nil => simp [List.isPrefixOf]
  | cons a as ih => simp [List.isPrefixOf, ih]

theorem isPrefixOf_head_ne {a b : Char} (as bs : Str) (h : a ≠ b) :
    List.isPrefixOf (a :: as) (b :: bs) = false := by
  simp [List.isPrefixOf, h]

theorem trimStartMatchesAux_no_match (pat : Str) (fuel : Nat) (s : Str)
    (h : pat.isPrefixOf s = false) : trimStartMatchesAux pat fuel s = s := by
  cases fuel with
  | zero => rfl
  | succ n => simp [trimStartMatchesAux, h]

theorem trimStartMatchesAux_strip (pat z : Str) (fuel : Nat) (hne : pat ≠ []) :
    trimStartMatchesAux pat (fuel + 1) (pat ++ z) = trimStartMatchesAux pat fuel z := by
  simp [trimStartMatchesAux, hne, isPrefixOf_append_self, List.drop_left]

theorem trimLeft_length_le (s : Str) : (trimLeft s).length ≤ s.length := by
  induction s with
  | nil => simp [trimLeft]
  | cons c cs ih =>
    by_cases h : c.isWhitespace <;> simp [trimLeft, h]
    omega

theorem head_not_ws_of_trimLeft_fix {c : Char} {cs : Str}
    (h : trimLeft (c :: cs) = c :: cs) : c.isWhitespace = false := by
  by_cases hw : c.isWhitespace
  · exfalso
    rw [trimLeft, if_pos hw] at h
    have := trimLeft_length_le cs
    have := congrArg List.length h
    simp at this
    omega
  · simpa using hw

theorem trimLeft_append {xs : Str} (ys : Str) (hx : trimLeft xs = xs) (hne : xs ≠ []) :
    trimLeft (xs ++ ys) = xs ++ ys := by
  cases xs with
  | nil => exact absurd rfl hne
  | cons c cs =>
    have hc := head_not_ws_of_trimLeft_fix hx
    simp only [List.cons_append, trimLeft, hc]
    simp

theorem trimLeft_reverse_of_trimRight_fix {s : Str} (h : trimRight s = s) :
    trimLeft s.reverse = s.reverse := by
  have := congrArg List.reverse h
  rwa [trimRight, List.reverse_reverse] at this

theorem trimRight_append (xs : Str) {ys : Str} (hy : trimRight ys = ys) (hne : ys ≠ []) :
    trimRight (xs ++ ys) = xs ++ ys := by
  have h1 : trimLeft ys.reverse = ys.reverse := trimLeft_reverse_of_trimRight_fix hy
  have h2 : ys.reverse ≠ [] := by simpa using hne
  have : trimLeft ((xs ++ ys).reverse) = (xs ++ ys).reverse := by
    rw [List.reverse_append, trimLeft_append xs.reverse h1 h2]
  rw [trimRight, this, List.reverse_reverse]

theorem splitOnChar_ne_nil (c : Char) (s : Str) : splitOnChar c s ≠ [] := by
  cases s with
  | nil => simp [splitOnChar]
  | cons a as =>
    by_cases h : a = c
    · simp [splitOnChar, h]
    · simp only [splitOnChar, if_neg h]
      cases splitOnChar c as <;> simp

theorem flatten_splitOnChar (c : Char) (s : Str) :
    (splitOnChar c s).flatten = s.filter (fun a => !(a == c)) := by
  induction s with
  | nil => rfl
  | cons a as ih =>
    by_cases h : a = c
    · subst h
      simp [splitOnChar, List.filter, ih]
    · simp only [splitOnChar, if_neg h]
      rcases hs : splitOnChar c as with _ | ⟨p, ps⟩
      · exact absurd hs (splitOnChar_ne_nil c as)
      · rw [hs] at ih
        simp only [List.flatten_cons] at ih
        have hb : (a == c) = false := by simpa using h
        simp [List.flatten_cons, List.filter, hb, ← ih]

theorem flatten_tail_splitOnChar (c : Char) (s : Str) :
    ((splitOnChar c s).tail).flatten = (afterFirstOcc c s).filter (fun a => !(a == c)) := by
  induction s with
  | nil => rfl
  | cons a as ih =>
    by_cases h : a = c
    · subst h
      simp [splitOnChar, afterFirstOcc, flatten_splitOnChar]
    · simp only [splitOnChar, if_neg h, afterFirstOcc]
      rcases hs : splitOnChar c as with _ | ⟨p, ps⟩
      · exact absurd hs (splitOnChar_ne_nil c as)
      · rw [hs] at ih
        simpa using ih

theorem mem_of_mem_splitOnChar {c : Char} {s : Str} :
    ∀ {x : Str}, x ∈ splitOnChar c s → ∀ {a : Char}, a ∈ x → a ∈ s := by
  induction s with
  | nil =>
    intro x hx a ha
    simp [splitOnChar] at hx
    subst hx
    simp at ha
  | cons b bs ih =>
    intro x hx a ha
    by_cases h : b = c
    · rw [splitOnChar, if_pos h] at hx
      rcases List.mem_cons.mp hx with h1 | h1
      · subst h1; simp at ha
      · exact List.mem_cons_of_mem _ (ih h1 ha)
    · rw [splitOnChar, if_neg h] at hx
      rcases hs : splitOnChar c bs with _ | ⟨p, ps⟩
      · exact absurd hs (splitOnChar_ne_nil c bs)
      · rw [hs] at hx
        rcases List.mem_cons.mp hx with h1 | h1
        · subst h1
          rcases List.mem_cons.mp ha with h2 | h2
          · subst h2; simp
          · exact List.mem_cons_of_mem _ (ih (hs ▸ List.mem_cons_self p ps) h2)
        · exact List.mem_cons_of_mem _ (ih (hs ▸ List.mem_cons_of_mem p h1) ha)

theorem sep_not_mem_splitOnChar {c : Char} {s : Str} :
    ∀ {x : Str}, x ∈ splitOnChar c s → c ∉ x := by
  induction s with
  | nil =>
    intro x hx
    simp [splitOnChar] at hx
    subst hx
    simp
  | cons b bs ih =>
    intro x hx
    by_cases h : b = c
    · rw [splitOnChar, if_pos h] at hx
      rcases List.mem_cons.mp hx with h1 | h1
      · subst h1; simp
      · exact ih h1
    · rw [splitOnChar, if_neg h] at hx
      rcases hs : splitOnChar c bs with _ | ⟨p, ps⟩
      · exact absurd hs (splitOnChar_ne_nil c bs)
      · rw [hs] at hx
        rcases List.mem_cons.mp hx with h1 | h1
        · subst h1
          intro hc
          rcases List.mem_cons.mp hc with h2 | h2
          · exact h h2.symm
          · exact ih (hs ▸ List.mem_cons_self p ps) h2
        · exact ih (hs ▸ List.mem_cons_of_mem p h1)

theorem mem_of_mem_trimLeft {s : Str} {a : Char} (h : a ∈ trimLeft s) : a ∈ s := by
  induction s with
  | nil => simp [trimLeft] at h
  | cons c cs ih =>
    by_cases hw : c.isWhitespace
    · rw [trimLeft, if_pos hw] at h
      exact List.mem_cons_of_mem _ (ih h)
    · rwa [trimLeft, if_neg hw] at h

theorem mem_of_mem_trim {s : Str} {a : Char} (h : a ∈ trim s) : a ∈ s := by
  rw [trim, trimRight, List.mem_reverse] at h
  have h2 : a ∈ (trimLeft s).reverse := mem_of_mem_trimLeft h
  rw [List.mem_reverse] at h2
  exact mem_of_mem_trimLeft h2

theorem nl_not_mem_rustLines {s l : Str} (hl : l ∈ rustLines s) : '\n' ∉ l := by
  have core : ∀ x ∈ splitOnChar '\n' s, '\n' ∉ x := fun x hx => sep_not_mem_splitOnChar hx
  rw [rustLines] at hl
  rcases hlast : (splitOnChar '\n' s).getLast? with _ | last
  · simp [hlast] at hl
  · rcases hlast2 : last with _ | ⟨c, cs⟩ <;> rw [hlast2] at hlast <;> simp only [hlast] at hl
    · rcases List.mem_map.mp hl with ⟨x, hx, hsx⟩
      have hxmem : x ∈ splitOnChar '\n' s := List.dropLast_subset _ hx
      intro hmem
      rw [← hsx] at hmem
      rcases (by by_cases hc : x.getLast? = some '\r' <;> simp [stripCR, hc] at hmem ⊢ <;>
        [exact List.dropLast_subset _ hmem; exact hmem] : '\n' ∈ x) with hx2
      exact core x hxmem hx2
    · rcases List.mem_append.mp hl with h1 | h1
      · rcases List.mem_map.mp h1 with ⟨x, hx, hsx⟩
        have hxmem : x ∈ splitOnChar '\n' s := List.dropLast_subset _ hx
        intro hmem
        rw [← hsx] at hmem
        rcases (by by_cases hc : x.getLast? = some '\r' <;> simp [stripCR, hc] at hmem ⊢ <;>
          [exact List.dropLast_subset _ hmem; exact hmem] : '\n' ∈ x) with hx2
        exact core x hxmem hx2
      · rcases List.mem_singleton.mp h1 with rfl
        exact core _ (List.mem_of_getLast?_eq_some hlast)

theorem payload_nl_free {h p : Str} (hp : p ∈ historyPayloads h) :
    endsWithNewline p = false := by
  rw [historyPayloads] at hp
  rcases List.mem_map.mp hp with ⟨l, hl, hpl⟩
  have hl' : l ∈ rustLines h := List.mem_reverse.mp hl
  have hnm : '\n' ∉ p := by
    intro hmem
    rw [← hpl, payloadOf] at hmem
    rcases List.mem_flatten.mp hmem with ⟨x, hx, hax⟩
    have hx' : x ∈ splitOnChar ';' (trim l) := List.mem_of_mem_tail hx
    exact nl_not_mem_rustLines hl' (mem_of_mem_trim (mem_of_mem_splitOnChar hx' hax))
  rw [endsWithNewline]
  rcases hlast : p.getLast? with _ | c
  · rfl
  · have : c ∈ p := List.mem_of_getLast?_eq_some hlast
    have : c ≠ '\n' := fun hc => hnm (hc ▸ this)
    simpa using this

/-! ### Structure lemmas about the scan loop -/

theorem runLoop_extends : ∀ (l : List Str) (vs : List Variable) (res out : List Str),
    runLoop l vs res = .ok out → ∃ t, out = res ++ t := by
  intro l
  induction l with
  | nil =>
    intro vs res out hout
    simp only [runLoop, POutcome.ok.injEq] at hout
    exact ⟨[], by simp [hout]⟩
  | cons q rest ih =>
    intro vs res out hout
    simp only [runLoop] at hout
    by_cases hnl : endsWithNewline q = true
    · rw [if_pos hnl] at hout; exact absurd hout (by simp)
    · rw [if_neg hnl] at hout
      by_cases hig : IGNORED_COMMANDS.any (fun w => strContains q w) = true
      · rw [if_pos hig] at hout
        exact ih vs res out hout
      · rw [if_neg hig] at hout
        by_cases hask : is_please_ask q = true
        · rw [if_pos hask] at hout
          cases vs with
          | nil => exact absurd hout (by simp)
          | cons v vtl =>
            rcases ih vtl (res ++ [v.expr, readCmd q v]) out hout with ⟨t, ht⟩
            exact ⟨[v.expr, readCmd q v] ++ t, by simp [ht]⟩
        · rw [if_neg hask] at hout
          rcases ih vs (res ++ [q]) out hout with ⟨t, ht⟩
          exact ⟨[q] ++ t, by simp [ht]⟩

theorem runLoop_mem_out : ∀ (l : List Str) (vs : List Variable) (res out : List Str) {p : Str},
    p ∈ l →
    IGNORED_COMMANDS.any (fun w => strContains p w) = false →
    is_please_ask p = false →
    runLoop l vs res = .ok out → p ∈ out := by
  intro l
  induction l with
  | nil => intro vs res out p hp; simp at hp
  | cons q rest ih =>
    intro vs res out p hp hig hask hout
    simp only [runLoop] at hout
    by_cases hnl : endsWithNewline q = true
    · rw [if_pos hnl] at hout; exact absurd hout (by simp)
    · rw [if_neg hnl] at hout
      by_cases hqig : IGNORED_COMMANDS.any (fun w => strContains q w) = true
      · rw [if_pos hqig] at hout
        rcases List.mem_cons.mp hp with rfl | hp'
        · exact absurd hqig (by simp [hig])
        · exact ih vs res out hp' hig hask hout
      · rw [if_neg hqig] at hout
        by_cases hqask : is_please_ask q = true
        · rw [if_pos hqask] at hout
          cases vs with
          | nil => exact absurd hout (by simp)
          | cons v vtl =>
            rcases List.mem_cons.mp hp with rfl | hp'
            · exact absurd hqask (by simp [hask])
            · exact ih vtl (res ++ [v.expr, readCmd q v]) out hp' hig hask hout
        · rw [if_neg hqask] at hout
          rcases List.mem_cons.mp hp with rfl | hp'
          · rcases runLoop_extends rest vs (res ++ [p]) out hout with ⟨t, ht⟩
            subst ht
            simp
          · exact ih vs (res ++ [q]) out hp' hig hask hout

theorem runLoop_overflow : ∀ (l : List Str) (vs : List Variable) (res : List Str),
    (∀ q ∈ l, endsWithNewline q = false) → vs.length < askCount l →
    runLoop l vs res = .panicked ("contains var".data) := by
  intro l
  induction l with
  | nil => intro vs res _ hcnt; simp [askCount] at hcnt
  | cons q rest ih =>
    intro vs res hnl hcnt
    have hqnl : endsWithNewline q = false := hnl q (List.mem_cons_self q rest)
    have hrest : ∀ x ∈ rest, endsWithNewline x = false :=
      fun x hx => hnl x (List.mem_cons_of_mem q hx)
    simp only [runLoop, hqnl, Bool.false_eq_true, if_false]
    by_cases hqig : IGNORED_COMMANDS.any (fun w => strContains q w) = true
    · rw [if_pos hqig]
      have : isAskCounted q = false := by simp [isAskCounted, hqig]
      have hc : askCount (q :: rest) = askCount rest := by
        simp [askCount, List.filter_cons, this]
      exact ih vs res hrest (by omega)
    · rw [if_neg hqig]
      by_cases hqask : is_please_ask q = true
      · rw [if_pos hqask]
        have hqc : isAskCounted q = true := by
          simp only [isAskCounted, hqask, Bool.and_true]
          simpa using hqig
        have hc : askCount (q :: rest) = askCount rest + 1 := by
          simp [askCount, List.filter_cons, hqc]
        cases vs with
        | nil => rfl
        | cons v vtl =>
          exact ih vtl (res ++ [v.expr, readCmd q v]) hrest (by simp at hcnt ⊢; omega)
      · rw [if_neg hqask]
        have : isAskCounted q = false := by simp [isAskCounted, hqask]
        have hc : askCount (q :: rest) = askCount rest := by
          simp [askCount, List.filter_cons, this]
        exact ih vs (res ++ [q]) hrest (by omega)

/-! ### Computation of `is_start_of_build` on phrase-plus-argument lines -/

theorem trim_build_arg {r : Str} (hR : trimRight r = r) (hne : r ≠ []) :
    trim ("please build ".data ++ r) = "please build ".data ++ r := by
  have h1 : trimLeft ("please build ".data ++ r) = "please build ".data ++ r :=
    trimLeft_append r (by decide) (by decide)
  rw [trim, h1]
  exact trimRight_append ("please build ".data) hR hne

theorem trimStartMatches_build_arg (r : Str) :
    trimStartMatches BUILD_CMD ("please build ".data ++ r) = ' ' :: r := by
  have hsplit : "please build ".data ++ r = BUILD_CMD ++ (' ' :: r) := by
    simp [BUILD_CMD]
  rw [trimStartMatches, hsplit]
  have hlen : (BUILD_CMD ++ (' ' :: r)).length = (BUILD_CMD.length + r.length) + 1 := by
    simp
    omega
  rw [hlen, trimStartMatchesAux_strip BUILD_CMD (' ' :: r) _ (by decide)]
  exact trimStartMatchesAux_no_match BUILD_CMD _ _ (by rw [show BUILD_CMD = 'p' :: "lease build".data from rfl]; exact isPrefixOf_head_ne _ _ (by decide))

theorem trim_space_cons {r : Str} (hL : trimLeft r = r) (hR : trimRight r = r) :
    trim (' ' :: r) = r := by
  rw [trim, trimLeft, if_pos (by decide), hL]
  exact hR

theorem is_start_of_build_arg {r : Str} (hL : trimLeft r = r) (hR : trimRight r = r) :
    is_start_of_build ("please build ".data ++ r)
      = (!(r == "--help".data) && !(r == "-h".data) && !r.isEmpty) := by
  by_cases hne : r = []
  · subst hne; decide
  · have hpre : BUILD_CMD.isPrefixOf ("please build ".data ++ r) = true := by
      rw [show "please build ".data ++ r = BUILD_CMD ++ (' ' :: r) by simp [BUILD_CMD]]
      exact isPrefixOf_append_self _ _
    rw [is_start_of_build, if_pos hpre]
    have hrem : trim (trimStartMatches BUILD_CMD (trim ("please build ".data ++ r))) = r := by
      rw [trim_build_arg hR hne, trimStartMatches_build_arg, trim_space_cons hL hR]
    rw [hrem]
    by_cases h1 : r == "--help".data
    · simp [h1]
    · by_cases h2 : r == "-h".data
      · simp [h2]
      · simp [h1, h2]

/-! ### Round-trip lemmas for the persisted session -/

theorem variable_json_roundtrip (v : Variable) :
    Variable.fromJson (Variable.toJson v) = some v := rfl

theorem vars_json_roundtrip (vs : List Variable) :
    varsFromJson (vs.map Variable.toJson) = some vs := by
  induction vs with
  | nil => rfl
  | cons v rest ih => simp [varsFromJson, variable_json_roundtrip, ih]

/-! ### The claims -/

/-- Claim C1, corrected.  The reverse scan of `parse_history` stops at (and
excludes) a history line whose payload is the build-trigger phrase followed
by a non-flag argument (such a line satisfies `is_start_of_build`), while a
payload that is the bare phrase `please build` does not stop the scan: it
is dropped as an ignored administrative command and scanning continues past
it to older lines. -/
theorem C1_amended (newer older rest res : List Str) (stopLine : Str)
    (vars : List Variable)
    (hnewer : ∀ l ∈ newer, is_start_of_build l = false)
    (hstop : is_start_of_build stopLine = true) :
    scanPayloads (newer ++ stopLine :: older) = newer
    ∧ scanPayloads (newer ++ "please build".data :: older)
      = newer ++ "please build".data :: scanPayloads older
    ∧ runLoop ("please build".data :: rest) vars res = runLoop rest vars res := by
  have hnewer' : ∀ l ∈ newer, notBuildStart l = true := by
    intro l hl
    simp [notBuildStart, hnewer l hl]
  refine ⟨?_, ?_, ?_⟩
  · rw [scanPayloads, List.takeWhile_append_of_pos hnewer', List.takeWhile_cons]
    simp [notBuildStart, hstop]
  · rw [scanPayloads, List.takeWhile_append_of_pos hnewer', List.takeWhile_cons]
    have hb : notBuildStart ("please build".data) = true := by decide
    simp [hb, scanPayloads]
  · have h1 : endsWithNewline ("please build".data) = false := by decide
    have h2 : IGNORED_COMMANDS.any (fun w => strContains ("please build".data) w)
        = true := by decide
    simp [runLoop, h1, h2]

/-- Claim C1, counterexample to the claim as stated: in a five-line history
the scan stops at `please build somename` (the older `echo old` never
reaches the output) and continues past the bare `please build` (the older
`echo mid` is still in the output); at the payload level, `take_while`
returns nothing past a `please build somename` payload and everything past
a bare `please build` payload. -/
theorem C1_counterexample :
    parse_history
        (": t:0;echo old\n: t:0;please build somename\n: t:0;echo mid\n: t:0;please build\n: t:0;echo new".data)
        []
      = .ok ["#!/bin/sh\n".data, "set -e\n".data, "echo mid".data, "echo new".data]
    ∧ scanPayloads ["please build somename".data, "echo old".data] = []
    ∧ scanPayloads ["echo new".data, "please build".data, "echo mid".data]
      = ["echo new".data, "please build".data, "echo mid".data] := by decide

/-- Claim C1, witness for the amended theorem at a concrete scan. -/
theorem C1_witness :
    scanPayloads (["echo new".data] ++ "please build somename".data :: ["echo old".data])
      = ["echo new".data]
    ∧ scanPayloads (["echo new".data] ++ "please build".data :: ["echo old".data])
      = ["echo new".data] ++ "please build".data :: scanPayloads ["echo old".data]
    ∧ runLoop ("please build".data :: ["echo mid".data]) [] []
      = runLoop ["echo mid".data] [] [] :=
  C1_amended ["echo new".data] ["echo old".data] ["echo mid".data] []
    ("please build somename".data) [] (by decide) (by decide)

/-- Claim C2: `is_start_of_build` is false on the bare build-trigger phrase
and on any line not starting with the phrase, and on a phrase-plus-argument
line it is true exactly when the (trimmed) remainder is non-empty and is
neither `--help` nor `-h`. -/
theorem C2_thm (line r : Str) (hL : trimLeft r = r) (hR : trimRight r = r)
    (hnp : BUILD_CMD.isPrefixOf line = false) :
    is_start_of_build ("please build".data) = false
    ∧ is_start_of_build line = false
    ∧ is_start_of_build ("please build ".data ++ r)
      = (!(r == "--help".data) && !(r == "-h".data) && !r.isEmpty) := by
  refine ⟨by decide, ?_, is_start_of_build_arg hL hR⟩
  rw [is_start_of_build, if_neg (by simp [hnp])]

/-- Claim C2, witness: the bare phrase and `--help` variants are not a
start-of-build; `please build somename` is; `echo foobar` is not. -/
theorem C2_witness :
    is_start_of_build ("please build".data) = false
    ∧ is_start_of_build ("echo foobar".data) = false
    ∧ is_start_of_build ("please build ".data ++ "somename".data)
      = (!("somename".data == "--help".data) && !("somename".data == "-h".data)
          && !("somename".data).isEmpty) :=
  C2_thm ("echo foobar".data) ("somename".data) (by decide) (by decide) (by decide)

/-- Claim C3, corrected.  For every ask line the loop expands, the final
(post-reversal) output contains the two emitted lines adjacently in the
order: the `read -p "<prompt> " <variable>` statement first, then the
consumed variable's recorded expression line immediately after it (the
loop pushes the expression first and the read statement second, so the
final reversal puts the read statement first). -/
theorem C3_amended (p : Str) (rest : List Str) (v : Variable) (vs : List Variable)
    (res out : List Str)
    (hnl : endsWithNewline p = false)
    (hig : IGNORED_COMMANDS.any (fun w => strContains p w) = false)
    (hask : is_please_ask p = true)
    (hok : finishRes (runLoop (p :: rest) (v :: vs) res) = .ok out) :
    ∃ a b, out = a ++ readCmd p v :: v.expr :: b := by
  have hstep : runLoop (p :: rest) (v :: vs) res
      = runLoop rest vs (res ++ [v.expr, readCmd p v]) := by
    simp [runLoop, hnl, hig, hask]
  rw [hstep] at hok
  cases hrun : runLoop rest vs (res ++ [v.expr, readCmd p v]) with
  | ok fin =>
    rw [hrun] at hok
    simp only [finishRes, POutcome.ok.injEq] at hok
    rcases runLoop_extends _ _ _ _ hrun with ⟨t, ht⟩
    subst ht
    refine ⟨SHEBANG :: "set -e\n".data :: t.reverse, res.reverse, ?_⟩
    rw [← hok]
    simp
  | err m => rw [hrun] at hok; simp [finishRes] at hok
  | panicked m => rw [hrun] at hok; simp [finishRes] at hok

/-- Claim C3, counterexample to the claim as stated: on the single-ask
history the final output is shebang, `set -e`, read statement, expression —
the expression-then-read adjacent pair demanded by the claim does not occur
anywhere in the output, while the read-then-expression pair does. -/
theorem C3_counterexample :
    parse_history (": t:0;please ask \"What is your name?\"".data)
        [⟨"VAR1".data, "echo $VAR1".data⟩]
      = .ok ["#!/bin/sh\n".data, "set -e\n".data,
             "read -p \"What is your name? \" VAR1".data, "echo $VAR1".data]
    ∧ hasAdjacentPair ("echo $VAR1".data)
        ("read -p \"What is your name? \" VAR1".data)
        ["#!/bin/sh\n".data, "set -e\n".data,
         "read -p \"What is your name? \" VAR1".data, "echo $VAR1".data] = false
    ∧ hasAdjacentPair ("read -p \"What is your name? \" VAR1".data)
        ("echo $VAR1".data)
        ["#!/bin/sh\n".data, "set -e\n".data,
         "read -p \"What is your name? \" VAR1".data, "echo $VAR1".data] = true := by
  decide

/-- Claim C3, witness for the amended theorem at a concrete ask line. -/
theorem C3_witness :
    ∃ a b, ["#!/bin/sh\n".data, "set -e\n".data, "read -p \"Hi? \" V".data,
            "echo $V".data]
      = a ++ readCmd ("please ask \"Hi?\"".data) ⟨"V".data, "echo $V".data⟩
          :: ("echo $V".data) :: b :=
  C3_amended ("please ask \"Hi?\"".data) [] ⟨"V".data, "echo $V".data⟩ [] []
    ["#!/bin/sh\n".data, "set -e\n".data, "read -p \"Hi? \" V".data, "echo $V".data]
    (by decide) (by decide) (by decide) (by decide)

/-- Claim C4: on the single-ask history with one recorded variable the
parse succeeds with exactly 4 lines and the third line contains the
`read -p "What is your name? " VAR1` statement. -/
theorem C4_thm :
    ∃ out, parse_history (": t:0;please ask \"What is your name?\"".data)
        [⟨"VAR1".data, "echo $VAR1".data⟩] = .ok out
      ∧ out.length = 4
      ∧ strContains (out.getD 2 []) ("read -p \"What is your name? \" VAR1".data)
        = true :=
  ⟨["#!/bin/sh\n".data, "set -e\n".data,
    "read -p \"What is your name? \" VAR1".data, "echo $VAR1".data],
   by decide, by decide, by decide⟩

/-- Claim C5, corrected.  The payload classified for each scanned line is
the whitespace-trimmed line split at semicolons with the first segment
dropped and the remaining segments concatenated — i.e. the text after the
first semicolon of the trimmed line with every further semicolon deleted —
and every payload that is neither ignored nor an ask command appears
unchanged, as a literal line, in the output script. -/
theorem C5_amended (line h p : Str) (vars : List Variable) (out : List Str)
    (hmem : p ∈ scanPayloads (historyPayloads h))
    (hig : IGNORED_COMMANDS.any (fun w => strContains p w) = false)
    (hask : is_please_ask p = false)
    (hok : parse_history h vars = .ok out) :
    payloadOf line = (afterFirstOcc ';' (trim line)).filter (fun a => !(a == ';'))
    ∧ p ∈ out := by
  constructor
  · rw [payloadOf, flatten_tail_splitOnChar]
  · rw [parse_history] at hok
    cases hrun : runLoop (scanPayloads (historyPayloads h)) vars.reverse [] with
    | ok fin =>
      rw [hrun] at hok
      simp only [finishRes, POutcome.ok.injEq] at hok
      have hpfin : p ∈ fin := runLoop_mem_out _ _ _ _ hmem hig hask hrun
      rw [← hok, List.mem_reverse]
      exact List.mem_append_left _ hpfin
    | err m => rw [hrun] at hok; simp [finishRes] at hok
    | panicked m => rw [hrun] at hok; simp [finishRes] at hok

/-- Claim C5, counterexample to the claim as stated: for the history line
`: t:0;echo a;echo b` the classified payload is `echo aecho b` (interior
semicolons deleted), not the claimed text-after-first-semicolon
`echo a;echo b`, and that deformed payload is what reaches the output. -/
theorem C5_counterexample :
    payloadOf (": t:0;echo a;echo b".data) = "echo aecho b".data
    ∧ trim (afterFirstOcc ';' (": t:0;echo a;echo b".data)) = "echo a;echo b".data
    ∧ payloadOf (": t:0;echo a;echo b".data)
        ≠ trim (afterFirstOcc ';' (": t:0;echo a;echo b".data))
    ∧ parse_history (": t:0;echo a;echo b".data) []
      = .ok ["#!/bin/sh\n".data, "set -e\n".data, "echo aecho b".data] := by decide

/-- Claim C5, witness for the amended theorem at a concrete line with an
interior semicolon and a concrete passed-through payload. -/
theorem C5_witness :
    payloadOf (": t:0; echo x;y".data)
      = (afterFirstOcc ';' (trim (": t:0; echo x;y".data))).filter
          (fun a => !(a == ';'))
    ∧ ("echo hi".data) ∈ ["#!/bin/sh\n".data, "set -e\n".data, "echo hi".data] :=
  C5_amended (": t:0; echo x;y".data) (": t:0;echo hi".data) ("echo hi".data) []
    ["#!/bin/sh\n".data, "set -e\n".data, "echo hi".data]
    (by decide) (by decide) (by decide) (by decide)

/-- Claim C6: with two ask lines (older prompting `your name?`, newer
`your age?`) and two variables recorded in matching chronological order,
the newest-to-oldest scan consumes the variable list in reverse, so the
final output pairs the name prompt with the first-recorded `VAR1` and the
age prompt with the second-recorded `VAR2`. -/
theorem C6_thm :
    parse_history (": t:0;please ask \"your name?\"\n: t:0;please ask \"your age?\"".data)
        [⟨"VAR1".data, "echo $VAR1".data⟩, ⟨"VAR2".data, "echo $VAR2".data⟩]
      = .ok ["#!/bin/sh\n".data, "set -e\n".data,
             "read -p \"your name? \" VAR1".data, "echo $VAR1".data,
             "read -p \"your age? \" VAR2".data, "echo $VAR2".data] := by decide

/-- Claim C7: when no payload of the history is a start-of-build line, the
scan covers the whole history, and a successful parse begins with the
shebang line, then `set -e`, followed by the reconstructed commands (the
reverse of what the loop collected scanning newest-to-oldest, i.e. the
commands in original chronological order). -/
theorem C7_thm (h : Str) (vars : List Variable) (out : List Str)
    (hnb : ∀ p ∈ historyPayloads h, is_start_of_build p = false)
    (hok : parse_history h vars = .ok out) :
    scanPayloads (historyPayloads h) = historyPayloads h
    ∧ ∃ body, out = SHEBANG :: ("set -e\n".data) :: body
      ∧ runLoop (historyPayloads h) vars.reverse [] = .ok body.reverse := by
  have hscan : scanPayloads (historyPayloads h) = historyPayloads h := by
    rw [scanPayloads, List.takeWhile_eq_self_iff]
    intro x hx
    simp [notBuildStart, hnb x hx]
  refine ⟨hscan, ?_⟩
  rw [parse_history, hscan] at hok
  cases hrun : runLoop (historyPayloads h) vars.reverse [] with
  | ok fin =>
    rw [hrun] at hok
    simp only [finishRes, POutcome.ok.injEq] at hok
    refine ⟨fin.reverse, ?_, by rw [List.reverse_reverse]⟩
    rw [← hok]
    simp
  | err m => rw [hrun] at hok; simp [finishRes] at hok
  | panicked m => rw [hrun] at hok; simp [finishRes] at hok

/-- Claim C7, witness on a one-line history with no build-trigger line. -/
theorem C7_witness :
    scanPayloads (historyPayloads (": t:0;echo hi".data))
      = historyPayloads (": t:0;echo hi".data)
    ∧ ∃ body, ["#!/bin/sh\n".data, "set -e\n".data, "echo hi".data]
        = SHEBANG :: ("set -e\n".data) :: body
      ∧ runLoop (historyPayloads (": t:0;echo hi".data)) [] [] = .ok body.reverse :=
  C7_thm (": t:0;echo hi".data) [] ["#!/bin/sh\n".data, "set -e\n".data, "echo hi".data]
    (by decide) (by decide)

/-- Claim C8, corrected.  Whenever the scanned portion of history contains
more ask lines than recorded variables, `parse_history` fails loudly — but
by panicking (the `expect` on the exhausted variable iterator, message
`contains var`), not by returning an `Err` value of its `Result` type; it
never succeeds or silently skips the ask line. -/
theorem C8_amended (h : Str) (vars : List Variable)
    (hcnt : vars.length < askCount (scanPayloads (historyPayloads h))) :
    parse_history h vars = .panicked ("contains var".data) := by
  have hnl : ∀ q ∈ scanPayloads (historyPayloads h), endsWithNewline q = false := by
    intro q hq
    rw [scanPayloads] at hq
    exact payload_nl_free ((List.takeWhile_sublist _).subset hq)
  rw [parse_history, runLoop_overflow _ _ _ hnl (by simpa using hcnt)]
  rfl

/-- Claim C8, counterexample to the claim as stated: on a history with one
ask line and no recorded variables the outcome is a panic, not a returned
non-ok result value. -/
theorem C8_counterexample :
    parse_history (": t:0;please ask \"Q?\"".data) []
      = .panicked ("contains var".data)
    ∧ isErrReturn (parse_history (": t:0;please ask \"Q?\"".data) []) = false := by
  decide

/-- Claim C8, witness for the amended theorem. -/
theorem C8_witness :
    parse_history (": t:0;please ask \"Q2?\"".data) []
      = .panicked ("contains var".data) :=
  C8_amended (": t:0;please ask \"Q2?\"".data) [] (by decide)

/-- Claim C9: persisting a build session with `save_replace` and loading it
back with `current_build` yields the identical script name and the
identical, identically ordered variable list, whatever was stored before. -/
theorem C9_thm (b : BuildFile) (fs : Option Json) :
    current_build (save_replace b fs) = .ok b := by
  simp +decide [save_replace, current_build, BuildFile.toJson, BuildFile.fromJson,
    List.lookup, vars_json_roundtrip]

/-- Claim C10: a scanned payload containing any phrase of the ignored list
as a substring contributes nothing to the loop's accumulated output — the
classification is by containment, not exact equality. -/
theorem C10_thm (p : Str) (rest : List Str) (vars : List Variable) (res : List Str)
    (hnl : endsWithNewline p = false)
    (hig : IGNORED_COMMANDS.any (fun w => strContains p w) = true) :
    runLoop (p :: rest) vars res = runLoop rest vars res := by
  simp [runLoop, hnl, hig]

/-- Claim C10, witness: `echo please list` is not an exact member of the
ignored list, yet it is dropped by containment; end to end, a history with
that line yields an output without it. -/
theorem C10_witness :
    IGNORED_COMMANDS.contains ("echo please list".data) = false
    ∧ runLoop ("echo please list".data :: ["echo hi".data]) [] []
        = runLoop ["echo hi".data] [] []
    ∧ parse_history (": t:0;echo please list\n: t:0;echo hi".data) []
      = .ok ["#!/bin/sh\n".data, "set -e\n".data, "echo hi".data] :=
  ⟨by decide,
   C10_thm ("echo please list".data) ["echo hi".data] [] [] (by decide) (by decide),
   by decide⟩

end Please
